import Mathlib

/-!
# RGW role entity (`src/rgw/rgw_role.h`): serialization, construction, pointer stores

A shallow embedding of `rgw::sal::RGWRole` from `rgw_role.h`:

* the versioned binary record written by `RGWRole::encode` and read by
  `RGWRole::decode` (header lines 87-117);
* the six-argument constructor (header lines 60-79);
* the `store_name` / `store_path` members (header lines 52-53) and the
  directory controller operations of the same name that the header only declares
  (lines 307-322).

Byte strings (`std::string`, `bufferlist` contents) are lists of bytes, machine
integers are natural numbers with explicit reduction modulo `2^w`, and code that
can throw returns `Except`.
-/

set_option autoImplicit false

namespace RGW

/-! ## Bytes, strings, maps -/

/-- One octet of a `bufferlist` or of a `std::string`. -/
abbrev Byte := Fin 256

/-- A `std::string`: a finite sequence of `char`, compared as unsigned bytes. -/
abbrev Str := List Byte

/-- Exceptions a decoder can raise (`ceph::buffer::end_of_buffer`,
`ceph::buffer::malformed_input`). -/
inductive DecodeError where
  | end_of_buffer
  | malformed_input
  deriving DecidableEq, Repr

/-- Results of fallible code can be compared by evaluation. -/
instance instDecidableEqExcept {ε α : Type} [DecidableEq ε] [DecidableEq α] :
    DecidableEq (Except ε α)
  | .ok a, .ok b =>
    if h : a = b then isTrue (by rw [h]) else isFalse (fun h' => h (by cases h'; rfl))
  | .error a, .error b =>
    if h : a = b then isTrue (by rw [h]) else isFalse (fun h' => h (by cases h'; rfl))
  | .ok _, .error _ => isFalse (fun h => by cases h)
  | .error _, .ok _ => isFalse (fun h => by cases h)

/-- The comparison `std::less<std::string>` that orders the keys of a
`std::map<std::string, std::string>`: lexicographic on unsigned bytes, a proper
prefix being smaller. -/
def strLt : Str → Str → Bool
  | [], [] => false
  | [], _ :: _ => true
  | _ :: _, [] => false
  | a :: as, b :: bs => decide (a < b) || (decide (a = b) && strLt as bs)

/-- A `std::map<std::string, std::string>`, as the list of its entries in
iteration order. -/
abbrev StdMap := List (Str × Str)

/-- The representation invariant of `std::map`: iteration visits the keys in
strictly increasing order (so keys are unique). -/
def StdMap.sorted (m : StdMap) : Prop :=
  m.Pairwise (fun a b => strLt a.1 b.1 = true)

/-- The assignment `m[k] = v` on a `std::map`: the entry is inserted at its place
in key order, or the value of an equal key is overwritten. -/
def StdMap.set (k v : Str) : StdMap → StdMap
  | [] => [(k, v)]
  | (k', v') :: rest =>
    if strLt k k' then (k, v) :: (k', v') :: rest
    else if strLt k' k then (k', v') :: StdMap.set k v rest
    else (k', v) :: rest

/-! ## Wire primitives

`rgw_role.h` calls the encoders and decoders of `include/encoding.h`, which is not
among the source files. -/

/-- Modelled from the spec: the fixed-width integer encoders of
`include/encoding.h` (absent from the sources). `w` bytes, least significant
first; a value that does not fit is truncated to its low `8 * w` bits, as a
store through a `ceph_le` type does. -/
def encode_le : Nat → Nat → List Byte
  | 0, _ => []
  | w + 1, n => ⟨n % 256, Nat.mod_lt _ (by decide)⟩ :: encode_le w (n / 256)

/-- The value of a little-endian byte sequence. -/
def decode_le : List Byte → Nat
  | [] => 0
  | b :: bs => b.val + 256 * decode_le bs

/-- Modelled from the spec: reading `n` raw bytes from a
`bufferlist::const_iterator` (absent from the sources). Fails with
`end_of_buffer` when fewer than `n` bytes remain; otherwise returns the bytes
read and the rest of the buffer. -/
def decode_raw (n : Nat) (bl : List Byte) : Except DecodeError (List Byte × List Byte) :=
  if bl.length < n then .error .end_of_buffer else .ok (bl.take n, bl.drop n)

/-- Modelled from the spec: `decode(__u8&, it)` of `include/encoding.h`. -/
def decode_u8 (bl : List Byte) : Except DecodeError (Nat × List Byte) :=
  match decode_raw 1 bl with
  | .error e => .error e
  | .ok (bs, rest) => .ok (decode_le bs, rest)

/-- Modelled from the spec: `decode(__u32&, it)` of `include/encoding.h`. -/
def decode_u32 (bl : List Byte) : Except DecodeError (Nat × List Byte) :=
  match decode_raw 4 bl with
  | .error e => .error e
  | .ok (bs, rest) => .ok (decode_le bs, rest)

/-- Modelled from the spec: `decode(uint64_t&, it)` of `include/encoding.h`. -/
def decode_u64 (bl : List Byte) : Except DecodeError (Nat × List Byte) :=
  match decode_raw 8 bl with
  | .error e => .error e
  | .ok (bs, rest) => .ok (decode_le bs, rest)

/-- Modelled from the spec: `encode(const std::string&, bl)` of
`include/encoding.h`: a 32-bit length followed by the characters. -/
def encode_string (s : Str) : List Byte :=
  encode_le 4 s.length ++ s

/-- Modelled from the spec: `decode(std::string&, it)` of `include/encoding.h`. -/
def decode_string (bl : List Byte) : Except DecodeError (Str × List Byte) :=
  match decode_u32 bl with
  | .error e => .error e
  | .ok (len, rest) => decode_raw len rest

/-- The entries of a map, each as key then value. -/
def encode_entries : StdMap → List Byte
  | [] => []
  | (k, v) :: rest => encode_string k ++ encode_string v ++ encode_entries rest

/-- Modelled from the spec: `encode(const std::map<K,V>&, bl)` of
`include/encoding.h`: a 32-bit entry count followed by the entries in iteration
order. -/
def encode_map (m : StdMap) : List Byte :=
  encode_le 4 m.length ++ encode_entries m

/-- The loop of the map decoder: `while (n--) { decode(k, p); decode(m[k], p); }`. -/
def decode_entries : Nat → StdMap → List Byte → Except DecodeError (StdMap × List Byte)
  | 0, acc, bl => .ok (acc, bl)
  | n + 1, acc, bl =>
    match decode_string bl with
    | .error e => .error e
    | .ok (k, bl1) =>
      match decode_string bl1 with
      | .error e => .error e
      | .ok (v, bl2) => decode_entries n (StdMap.set k v acc) bl2

/-- Modelled from the spec: `decode(std::map<K,V>&, it)` of `include/encoding.h`:
reads the count, clears the map, then reads and inserts that many entries. -/
def decode_map (bl : List Byte) : Except DecodeError (StdMap × List Byte) :=
  match decode_u32 bl with
  | .error e => .error e
  | .ok (n, rest) => decode_entries n [] rest

/-- Modelled from the spec: `ENCODE_START(v, compat, bl)` ... `ENCODE_FINISH(bl)`
of `include/encoding.h` (absent from the sources). The record starts with the
version tag `v`, the oldest compatible version `compat` and the 32-bit length of
the payload (`struct_len = bl.length() - starting_bl_len`), and the payload
follows. -/
def ENCODE_START_FINISH (v compat : Nat) (bl payload : List Byte) : List Byte :=
  bl ++ (encode_le 1 v ++ encode_le 1 compat ++ encode_le 4 payload.length ++ payload)

/-- Modelled from the spec: `DECODE_START(v, bl)` of `include/encoding.h` (absent
from the sources). Reads the version tag first, then the compatible version and
the payload length. Following the spec (section 4.1, "Decoding an unknown/future
version is a hard failure"), a version tag above the decoder's version `v` raises
`malformed_input`; so does a payload length that exceeds what is left in the
buffer. Returns `struct_v`, `struct_len` and the buffer positioned at the start
of the payload. -/
def DECODE_START (v : Nat) (bl : List Byte) : Except DecodeError (Nat × Nat × List Byte) :=
  match decode_u8 bl with
  | .error e => .error e
  | .ok (struct_v, bl1) =>
    match decode_u8 bl1 with
    | .error e => .error e
    | .ok (_struct_compat, bl2) =>
      if v < struct_v then .error .malformed_input
      else
        match decode_u32 bl2 with
        | .error e => .error e
        | .ok (struct_len, bl3) =>
          if struct_len > bl3.length then .error .malformed_input
          else .ok (struct_v, struct_len, bl3)

/-- Modelled from the spec: `DECODE_FINISH(bl)` of `include/encoding.h` (absent
from the sources). `start` is the buffer at the beginning of the payload and
`cur` the buffer after the fields were read, so `start.length - cur.length` bytes
were consumed. Reading past the end of the payload raises `malformed_input`;
payload bytes that were not read are skipped. -/
def DECODE_FINISH (struct_len : Nat) (start cur : List Byte) : Except DecodeError (List Byte) :=
  let off := start.length - cur.length
  if off > struct_len then .error .malformed_input
  else .ok (cur.drop (struct_len - off))

/-! ## The role entity -/

/-- `RGWRole::SESSION_DURATION_MIN`, in seconds (header line 33). -/
def SESSION_DURATION_MIN : Nat := 3600

/-- `RGWRole::SESSION_DURATION_MAX`, in seconds (header line 34). -/
def SESSION_DURATION_MAX : Nat := 43200

/-- The data members of `rgw::sal::RGWRole` (header lines 39-48); the
`role_ctl` pointer carries no data of the role. `max_session_duration` is a
`uint64_t`; `tags` is a `std::multimap`, held as its list of entries. -/
structure RGWRole where
  id : Str
  name : Str
  path : Str
  arn : Str
  creation_date : Str
  trust_policy : Str
  perm_policy_map : StdMap
  tenant : Str
  max_session_duration : Nat
  tags : List (Str × Str)
  deriving DecidableEq, Repr

namespace RGWRole

/-- `RGWRole() = default` (header line 83). Strings and maps are
default-constructed empty. `max_session_duration` has no initializer, so it holds
whatever the object's storage held: `uninit` (zero when the object is
value-initialized). -/
def default (uninit : Nat) : RGWRole :=
  { id := [], name := [], path := [], arn := [], creation_date := [], trust_policy := [],
    perm_policy_map := [], tenant := [], max_session_duration := uninit, tags := [] }

/-- `RGWRole(std::string id) : id(std::move(id)) {}` (header line 81). -/
def of_id (uninit : Nat) (id : Str) : RGWRole :=
  { default uninit with id := id }

/-- The payload of the record: the nine fields in the order in which
`RGWRole::encode` writes them (header lines 89-97). -/
def encode_fields (self : RGWRole) : List Byte :=
  encode_string self.id ++
  (encode_string self.name ++
  (encode_string self.path ++
  (encode_string self.arn ++
  (encode_string self.creation_date ++
  (encode_string self.trust_policy ++
  (encode_map self.perm_policy_map ++
  (encode_string self.tenant ++
  encode_le 8 self.max_session_duration)))))))

/-- `RGWRole::encode(bufferlist& bl)` (header lines 87-99): appends the record,
`ENCODE_START(3, 1, bl)`, the nine fields, `ENCODE_FINISH(bl)`, and returns the
buffer. -/
def encode (self : RGWRole) (bl : List Byte) : List Byte :=
  ENCODE_START_FINISH 3 1 bl self.encode_fields

/-- `RGWRole::decode(bufferlist::const_iterator& bl)` (header lines 101-117).
The role is updated in place in the source; here the updated role is returned
with the buffer after the record. A field that is not read keeps the value it had
in `self`. -/
def decode (self : RGWRole) (bl : List Byte) : Except DecodeError (RGWRole × List Byte) := do
  let (struct_v, struct_len, start) ← DECODE_START 3 bl
  let (id, bl) ← decode_string start
  let (name, bl) ← decode_string bl
  let (path, bl) ← decode_string bl
  let (arn, bl) ← decode_string bl
  let (creation_date, bl) ← decode_string bl
  let (trust_policy, bl) ← decode_string bl
  let (perm_policy_map, bl) ← decode_map bl
  let (tenant, bl) ← if struct_v ≥ 2 then decode_string bl else pure (self.tenant, bl)
  let (max_session_duration, bl) ←
    if struct_v ≥ 3 then decode_u64 bl else pure (self.max_session_duration, bl)
  let bl ← DECODE_FINISH struct_len start bl
  pure ({ self with id := id, name := name, path := path, arn := arn,
                    creation_date := creation_date, trust_policy := trust_policy,
                    perm_policy_map := perm_policy_map, tenant := tenant,
                    max_session_duration := max_session_duration }, bl)

/-- The seven fields a version-1 record carries, in order. -/
def encode_fields_v1 (self : RGWRole) : List Byte :=
  encode_string self.id ++
  (encode_string self.name ++
  (encode_string self.path ++
  (encode_string self.arn ++
  (encode_string self.creation_date ++
  (encode_string self.trust_policy ++
  encode_map self.perm_policy_map)))))

/-- Modelled from the spec: the writer of schema version 1, which predates the
header in the sources ("a record encoded with only fields through version 1":
`id, name, path, arn, creation_date, trust_policy, perm_policy_map`). -/
def encode_v1 (self : RGWRole) (bl : List Byte) : List Byte :=
  ENCODE_START_FINISH 1 1 bl self.encode_fields_v1

/-! ### Construction -/

/-- Exceptions of the standard library that `std::stoull` raises. -/
inductive StdError where
  | invalid_argument
  | out_of_range
  deriving DecidableEq, Repr

/-- `std::isspace` in the "C" locale: space, and `\t \n \v \f \r` (9 to 13). -/
def isspace (c : Byte) : Bool :=
  decide (c = 32) || (decide (9 ≤ c) && decide (c ≤ 13))

/-- `std::isdigit`: `'0'` (48) to `'9'` (57). -/
def isdigit (c : Byte) : Bool :=
  decide (48 ≤ c) && decide (c ≤ 57)

/-- The value of a run of decimal digits, most significant first. -/
def digits_value (ds : List Byte) : Nat :=
  ds.foldl (fun acc d => 10 * acc + (d.val - 48)) 0

/-- The optional sign in front of the digits: `-` (45) or `+` (43). Returns
whether the number is negated, and what follows the sign. -/
def take_sign : Str → Bool × Str
  | 45 :: t => (true, t)
  | 43 :: t => (false, t)
  | s => (false, s)

/-- `std::stoull(str)` of the C++ standard library, base 10, as the constructor
calls it (header line 77). Leading white space is skipped, one sign is accepted,
then the longest run of digits is converted and what follows is ignored. No
digit: `std::invalid_argument`. A magnitude above `ULLONG_MAX`:
`std::out_of_range`. After a minus sign the value is negated in `unsigned long
long`. -/
def stoull (str : Str) : Except StdError Nat :=
  let s := str.dropWhile isspace
  let (neg, s) := take_sign s
  let ds := s.takeWhile isdigit
  if ds.isEmpty then .error .invalid_argument
  else
    let v := digits_value ds
    if v ≥ 2 ^ 64 then .error .out_of_range
    else .ok (if neg then (2 ^ 64 - v) % 2 ^ 64 else v)

/-- `std::move` applied to a `std::string` that is then used to construct another
one: the first component is the value the destination receives, the second is
what the source holds afterwards. The standard leaves a moved-from string valid
but unspecified; libstdc++, libc++ and the MSVC library all leave it empty. -/
def std_move (s : Str) : Str × Str :=
  (s, [])

/-- Splits a string at its first `$` (36): the part before and the part after. -/
def split_tenant : Str → Option (Str × Str)
  | [] => none
  | c :: cs =>
    if c = 36 then some ([], cs)
    else
      match split_tenant cs with
      | none => none
      | some (t, n) => some (c :: t, n)

/-- Modelled from the spec: `RGWRole::extract_name_tenant(const std::string& str)`
(declared on header line 58, defined outside the sources). "Parses a possibly
tenant-qualified name into `(tenant, name)`", the tenant being the part before the
separator `$` and not containing it; "fails only by leaving fields unset if the
input has no qualifier". -/
def extract_name_tenant (self : RGWRole) (str : Str) : RGWRole :=
  match split_tenant str with
  | some (t, n) => { self with tenant := t, name := n }
  | none => self

/-- The six-argument constructor `RGWRole(name, tenant, path, trust_policy,
max_session_duration_str, tags)` (header lines 60-79). `uninit` is the content of
the storage of `max_session_duration` before the body assigns it.

The member initializers move each parameter into the member of the same name.
In the body an unqualified `name` is the parameter, which has been moved from;
the member is `this->name`. -/
def new (uninit : Nat) (name tenant path trust_policy max_session_duration_str : Str)
    (tags : List (Str × Str)) : Except StdError RGWRole :=
  -- : name(std::move(name)), path(std::move(path)), trust_policy(std::move(trust_policy)),
  --   tenant(std::move(tenant)), tags(std::move(tags))
  let (m_name, name) := std_move name
  let (m_path, _) := std_move path
  let (m_trust_policy, _) := std_move trust_policy
  let (m_tenant, _) := std_move tenant
  let self : RGWRole :=
    { id := [], name := m_name, path := m_path, arn := [], creation_date := [],
      trust_policy := m_trust_policy, perm_policy_map := [], tenant := m_tenant,
      max_session_duration := uninit, tags := tags }
  -- if (this->path.empty()) this->path = "/";
  let self := if self.path.isEmpty then { self with path := [47] } else self
  -- extract_name_tenant(name);
  let self := self.extract_name_tenant name
  -- if (max_session_duration_str.empty()) ... else ...
  if max_session_duration_str.isEmpty then
    .ok { self with max_session_duration := SESSION_DURATION_MIN }
  else
    match stoull max_session_duration_str with
    | .error e => .error e
    | .ok v => .ok { self with max_session_duration := v }

end RGWRole

/-! ## Pointer records -/

namespace RGWRoleCtl

/-- `RGWRoleCtl::PutParams` (header lines 233-260). The modification time is a
count of clock ticks, a null `objv_tracker` or `attrs` pointer is `none`, and
the version tracker is the version token the caller last observed. -/
structure PutParams where
  mtime : Nat := 0
  exclusive : Bool := false
  objv_tracker : Option Nat := none
  attrs : Option (List (Str × List Byte)) := none
  deriving DecidableEq, Repr

/-- `PutParams::set_objv_tracker` (header lines 241-244). -/
def PutParams.set_objv_tracker (self : PutParams) (objv_tracker : Option Nat) : PutParams :=
  { self with objv_tracker := objv_tracker }

/-- `PutParams::set_mtime` (header lines 246-249). -/
def PutParams.set_mtime (self : PutParams) (mtime : Nat) : PutParams :=
  { self with mtime := mtime }

/-- `PutParams::set_attrs` (header lines 256-259). -/
def PutParams.set_attrs (self : PutParams) (attrs : Option (List (Str × List Byte))) :
    PutParams :=
  { self with attrs := attrs }

end RGWRoleCtl

/-! ## Well-formed roles -/

/-- What the types of the source guarantee of a role in memory: the policy map
satisfies the `std::map` invariant, `max_session_duration` is a `uint64_t`, and
the payload of its record fits the 32-bit length of a `bufferlist`. -/
def RGWRole.wf (r : RGWRole) : Prop :=
  r.perm_policy_map.sorted ∧ r.max_session_duration < 2 ^ 64 ∧ r.encode_fields.length < 2 ^ 32

/-- The same for the seven fields of a version-1 record. -/
def RGWRole.wf_v1 (r : RGWRole) : Prop :=
  r.perm_policy_map.sorted ∧ r.encode_fields_v1.length < 2 ^ 32

instance (m : StdMap) : Decidable m.sorted :=
  inferInstanceAs (Decidable (List.Pairwise _ m))

instance (r : RGWRole) : Decidable r.wf :=
  inferInstanceAs (Decidable (_ ∧ _ ∧ _))

instance (r : RGWRole) : Decidable r.wf_v1 :=
  inferInstanceAs (Decidable (_ ∧ _))

/-! ## Test data -/

/-- The bytes of an ASCII literal. -/
def ascii (s : String) : Str :=
  s.toList.map (fun c => Fin.ofNat c.toNat)

/-- The decimal digits of `n`, most significant first; `fuel` bounds their
number. -/
def decimal_digits : Nat → Nat → Str
  | 0, _ => []
  | fuel + 1, n =>
    if n < 10 then [Fin.ofNat (48 + n)]
    else decimal_digits fuel (n / 10) ++ [Fin.ofNat (48 + n % 10)]

/-- The decimal numeral of `n`, as a caller writes a duration in seconds. -/
def decimal (n : Nat) : Str :=
  decimal_digits (n + 1) n

/-- A role with every field set, two attached policies and one tag. -/
def sample_role : RGWRole :=
  { id := ascii "a1b2c3",
    name := ascii "admin",
    path := ascii "/app/",
    arn := ascii "arn:aws:iam::acme:role/app/admin",
    creation_date := ascii "2021-06-01T00:00:00.000Z",
    trust_policy := ascii "trust",
    perm_policy_map := [(ascii "p1", ascii "allow-get"), (ascii "p2", ascii "allow-put")],
    tenant := ascii "acme",
    max_session_duration := 7200,
    tags := [(ascii "env", ascii "prod")] }

/-- The same role with another tag set. -/
def sample_role_retagged : RGWRole :=
  { sample_role with tags := [(ascii "env", ascii "dev"), (ascii "team", ascii "x")] }

/-- A role that is not fresh: default-constructed, then given the tenant
`keeptenant`. -/
def tenanted_target : RGWRole :=
  { RGWRole.default 0 with tenant := ascii "keeptenant" }

end RGW


namespace RGW

/-! ## Lemmas on the wire primitives -/

theorem encode_le_length (w n : Nat) : (encode_le w n).length = w := by
  induction w generalizing n with
  | zero => rfl
  | succ w ih => simp [encode_le, ih]

theorem decode_le_encode_le (w n : Nat) : decode_le (encode_le w n) = n % 256 ^ w := by
  induction w generalizing n with
  | zero => simp [encode_le, decode_le, Nat.mod_one]
  | succ w ih =>
    simp only [encode_le, decode_le, ih]
    rw [pow_succ, Nat.mul_comm (256 ^ w) 256, Nat.mod_mul]

theorem decode_raw_append (a rest : List Byte) :
    decode_raw a.length (a ++ rest) = .ok (a, rest) := by
  simp [decode_raw]

theorem decode_u8_encode (n : Nat) (rest : List Byte) (h : n < 256) :
    decode_u8 (encode_le 1 n ++ rest) = .ok (n, rest) := by
  have := decode_raw_append (encode_le 1 n) rest
  rw [encode_le_length] at this
  simp [decode_u8, this, decode_le_encode_le, Nat.mod_eq_of_lt h]

theorem decode_u32_encode (n : Nat) (rest : List Byte) (h : n < 2 ^ 32) :
    decode_u32 (encode_le 4 n ++ rest) = .ok (n, rest) := by
  have := decode_raw_append (encode_le 4 n) rest
  rw [encode_le_length] at this
  have h' : n < 4294967296 := by norm_num at h; exact h
  simp [decode_u32, this, decode_le_encode_le, Nat.mod_eq_of_lt h', h']

theorem decode_u64_encode (n : Nat) (rest : List Byte) (h : n < 2 ^ 64) :
    decode_u64 (encode_le 8 n ++ rest) = .ok (n, rest) := by
  have := decode_raw_append (encode_le 8 n) rest
  rw [encode_le_length] at this
  have h' : n < 18446744073709551616 := by norm_num at h; exact h
  simp [decode_u64, this, decode_le_encode_le, Nat.mod_eq_of_lt h', h']

theorem encode_string_length (s : Str) : (encode_string s).length = 4 + s.length := by
  simp [encode_string, encode_le_length]

theorem decode_string_encode (s : Str) (rest : List Byte) (h : s.length < 2 ^ 32) :
    decode_string (encode_string s ++ rest) = .ok (s, rest) := by
  simp [decode_string, encode_string, List.append_assoc, decode_u32_encode _ _ h,
    decode_raw_append]

/-! ## Lemmas on `std::map` -/

theorem strLt_asymm (a b : Str) (h : strLt a b = true) : strLt b a = false := by
  induction a generalizing b with
  | nil => cases b <;> simp_all [strLt]
  | cons x xs ih =>
    cases b with
    | nil => simp [strLt] at h
    | cons y ys =>
      simp only [strLt, Bool.or_eq_true, Bool.and_eq_true, decide_eq_true_eq] at h
      simp only [strLt, Bool.or_eq_false_iff, Bool.and_eq_false_imp, decide_eq_false_iff_not,
        decide_eq_true_eq]
      rcases h with h | ⟨h1, h2⟩
      · exact ⟨lt_asymm h, fun e => absurd (e ▸ h) (lt_irrefl _)⟩
      · exact ⟨h1 ▸ lt_irrefl _, fun _ => ih ys h2⟩

theorem StdMap.set_append (k v : Str) (m : StdMap) (h : ∀ p ∈ m, strLt p.1 k = true) :
    StdMap.set k v m = m ++ [(k, v)] := by
  induction m with
  | nil => rfl
  | cons p m ih =>
    obtain ⟨k', v'⟩ := p
    have h1 : strLt k' k = true := h (k', v') (by simp)
    have h2 : strLt k k' = false := strLt_asymm _ _ h1
    have h3 : ∀ p ∈ m, strLt p.1 k = true := fun p hp => h p (by simp [hp])
    simp [StdMap.set, h1, h2, ih h3]

theorem encode_entries_bound (m : StdMap) :
    m.length ≤ (encode_entries m).length ∧
      ∀ p ∈ m, p.1.length + p.2.length + 8 ≤ (encode_entries m).length := by
  induction m with
  | nil => simp [encode_entries]
  | cons p m ih =>
    obtain ⟨k, v⟩ := p
    simp only [encode_entries, List.length_append, encode_string_length, List.length_cons,
      List.mem_cons]
    refine ⟨by omega, fun q hq => ?_⟩
    rcases hq with hq | hq
    · subst hq; simp only; omega
    · have := ih.2 q hq
      omega

theorem decode_entries_encode (m acc : StdMap) (rest : List Byte)
    (hs : StdMap.sorted (acc ++ m)) (hl : (encode_entries m).length < 2 ^ 32) :
    decode_entries m.length acc (encode_entries m ++ rest) = .ok (acc ++ m, rest) := by
  induction m generalizing acc with
  | nil => simp [decode_entries, encode_entries]
  | cons p m ih =>
    obtain ⟨k, v⟩ := p
    simp only [encode_entries, List.length_append, encode_string_length] at hl
    have hk : k.length < 2 ^ 32 := by omega
    have hv : v.length < 2 ^ 32 := by omega
    have hacc : ∀ p ∈ acc, strLt p.1 k = true := by
      intro q hq
      have := List.pairwise_append.mp hs
      exact this.2.2 q hq (k, v) (by simp)
    have hs' : StdMap.sorted ((acc ++ [(k, v)]) ++ m) := by
      simpa [StdMap.sorted, List.append_assoc] using hs
    simp only [List.length_cons, decode_entries, encode_entries, List.append_assoc,
      decode_string_encode _ _ hk, decode_string_encode _ _ hv, StdMap.set_append k v acc hacc]
    rw [ih (acc ++ [(k, v)]) hs' (by omega)]
    simp

theorem encode_map_length (m : StdMap) :
    (encode_map m).length = 4 + (encode_entries m).length := by
  simp [encode_map, encode_le_length]

theorem decode_map_encode (m : StdMap) (rest : List Byte) (hs : m.sorted)
    (hl : (encode_map m).length < 2 ^ 32) :
    decode_map (encode_map m ++ rest) = .ok (m, rest) := by
  rw [encode_map_length] at hl
  have hn : m.length < 2 ^ 32 := by
    have := (encode_entries_bound m).1
    omega
  simp only [decode_map, encode_map, List.append_assoc, decode_u32_encode _ _ hn]
  simpa using decode_entries_encode m [] rest (by simpa using hs) (by omega)

/-! ## Decoding what was encoded -/

namespace RGWRole

theorem encode_fields_length (r : RGWRole) :
    r.encode_fields.length =
      (4 + r.id.length) + (4 + r.name.length) + (4 + r.path.length) + (4 + r.arn.length) +
      (4 + r.creation_date.length) + (4 + r.trust_policy.length) +
      (encode_map r.perm_policy_map).length + (4 + r.tenant.length) + 8 := by
  simp only [encode_fields, List.length_append, encode_string_length, encode_le_length]
  omega

theorem encode_fields_v1_length (r : RGWRole) :
    r.encode_fields_v1.length =
      (4 + r.id.length) + (4 + r.name.length) + (4 + r.path.length) + (4 + r.arn.length) +
      (4 + r.creation_date.length) + (4 + r.trust_policy.length) +
      (encode_map r.perm_policy_map).length := by
  simp only [encode_fields_v1, List.length_append, encode_string_length]
  omega

/-- Decoding a current-version record into any role assigns the nine fields of
the role that was encoded and stops at the end of the record. -/
theorem decode_encode (r target : RGWRole) (rest : List Byte) (h : r.wf) :
    decode target (encode r [] ++ rest) =
      .ok ({ target with id := r.id, name := r.name, path := r.path, arn := r.arn,
                         creation_date := r.creation_date, trust_policy := r.trust_policy,
                         perm_policy_map := r.perm_policy_map, tenant := r.tenant,
                         max_session_duration := r.max_session_duration }, rest) := by
  obtain ⟨hs, hd, hl⟩ := h
  have hlen := encode_fields_length r
  have hstart : DECODE_START 3 (encode r [] ++ rest) = .ok (3, r.encode_fields.length,
      r.encode_fields ++ rest) := by
    simp only [encode, ENCODE_START_FINISH, DECODE_START, List.nil_append, List.append_assoc,
      decode_u8_encode 3 _ (by decide), decode_u8_encode 1 _ (by decide),
      decode_u32_encode _ _ hl]
    simp
  have hfin : DECODE_FINISH r.encode_fields.length (r.encode_fields ++ rest) rest = .ok rest := by
    simp [DECODE_FINISH]
  simp only [decode, hstart, bind, Except.bind]
  simp only [encode_fields, List.append_assoc] at hfin ⊢
  rw [decode_string_encode _ _ (by omega)]
  simp only []
  rw [decode_string_encode _ _ (by omega)]
  simp only []
  rw [decode_string_encode _ _ (by omega)]
  simp only []
  rw [decode_string_encode _ _ (by omega)]
  simp only []
  rw [decode_string_encode _ _ (by omega)]
  simp only []
  rw [decode_string_encode _ _ (by omega)]
  simp only []
  rw [decode_map_encode _ _ hs (by omega)]
  simp only [ge_iff_le, Nat.reduceLeDiff, ↓reduceIte]
  rw [decode_string_encode _ _ (by omega)]
  simp only []
  rw [decode_u64_encode _ _ hd]
  simp only [hfin]
  rfl

/-- Decoding a version-1 record into any role assigns the seven fields of the
record, leaves `tenant` and `max_session_duration` as they were in the target,
and stops at the end of the record. -/
theorem decode_encode_v1 (r target : RGWRole) (rest : List Byte) (h : r.wf_v1) :
    decode target (encode_v1 r [] ++ rest) =
      .ok ({ target with id := r.id, name := r.name, path := r.path, arn := r.arn,
                         creation_date := r.creation_date, trust_policy := r.trust_policy,
                         perm_policy_map := r.perm_policy_map }, rest) := by
  obtain ⟨hs, hl⟩ := h
  have hlen := encode_fields_v1_length r
  have hstart : DECODE_START 3 (encode_v1 r [] ++ rest) = .ok (1, r.encode_fields_v1.length,
      r.encode_fields_v1 ++ rest) := by
    simp only [encode_v1, ENCODE_START_FINISH, DECODE_START, List.nil_append, List.append_assoc,
      decode_u8_encode 1 _ (by decide), decode_u32_encode _ _ hl]
    simp
  have hfin : DECODE_FINISH r.encode_fields_v1.length (r.encode_fields_v1 ++ rest) rest =
      .ok rest := by
    simp [DECODE_FINISH]
  simp only [decode, hstart, bind, Except.bind]
  simp only [encode_fields_v1, List.append_assoc] at hfin ⊢
  rw [decode_string_encode _ _ (by omega)]
  simp only []
  rw [decode_string_encode _ _ (by omega)]
  simp only []
  rw [decode_string_encode _ _ (by omega)]
  simp only []
  rw [decode_string_encode _ _ (by omega)]
  simp only []
  rw [decode_string_encode _ _ (by omega)]
  simp only []
  rw [decode_string_encode _ _ (by omega)]
  simp only []
  rw [decode_map_encode _ _ hs (by omega)]
  simp only [ge_iff_le, Nat.reduceLeDiff, ↓reduceIte, pure, Except.pure, hfin]

/-- Whatever the buffer holds, a successful decode leaves the tags of the target
as they were. -/
theorem decode_tags (target r' : RGWRole) (bl rest : List Byte)
    (h : decode target bl = .ok (r', rest)) : r'.tags = target.tags := by
  simp only [decode, bind, Except.bind] at h
  repeat' split at h
  all_goals first
    | exact absurd h (by simp)
    | (simp only [pure, Except.pure, Except.ok.injEq, Prod.mk.injEq] at h
       rw [← h.1])

end RGWRole

/-! ## Lemmas on `std::stoull` and the constructor -/

theorem digits_value_append (l : List Byte) (d : Byte) :
    RGWRole.digits_value (l ++ [d]) = 10 * RGWRole.digits_value l + (d.val - 48) := by
  simp [RGWRole.digits_value, List.foldl_append]

theorem digit_val (n : Nat) (h : n < 10) : ((Fin.ofNat (48 + n) : Byte).val) = 48 + n := by
  simp only [Fin.ofNat, Fin.val_mk]
  omega

theorem digit_isdigit (n : Nat) (h : n < 10) : RGWRole.isdigit (Fin.ofNat (48 + n)) = true := by
  have := digit_val n h
  simp only [RGWRole.isdigit, Bool.and_eq_true, decide_eq_true_eq, Fin.le_def, this]
  constructor
  · show (48 : Nat) ≤ _
    omega
  · show _ ≤ (57 : Nat)
    omega

theorem decimal_digits_value (fuel n : Nat) (h : n < fuel) :
    RGWRole.digits_value (decimal_digits fuel n) = n := by
  induction fuel generalizing n with
  | zero => omega
  | succ fuel ih =>
    unfold decimal_digits
    split
    · rename_i h10
      simp [RGWRole.digits_value, digit_val n h10]
    · rw [digits_value_append, ih (n / 10) (by omega), digit_val _ (Nat.mod_lt _ (by decide))]
      omega

theorem decimal_digits_isdigit (fuel n : Nat) :
    ∀ c ∈ decimal_digits fuel n, RGWRole.isdigit c = true := by
  induction fuel generalizing n with
  | zero => simp [decimal_digits]
  | succ fuel ih =>
    unfold decimal_digits
    split
    · rename_i h10
      simpa using digit_isdigit n h10
    · intro c hc
      rcases List.mem_append.mp hc with hc | hc
      · exact ih _ c hc
      · rw [List.mem_singleton] at hc
        rw [hc]
        exact digit_isdigit _ (Nat.mod_lt _ (by decide))

theorem decimal_ne_nil (n : Nat) : decimal n ≠ [] := by
  unfold decimal decimal_digits
  split <;> simp

/-- A non-empty run of digits whose value fits 64 bits parses to its value. -/
theorem stoull_digits (ds : Str) (hne : ds ≠ []) (hd : ∀ c ∈ ds, RGWRole.isdigit c = true)
    (hv : RGWRole.digits_value ds < 2 ^ 64) :
    RGWRole.stoull ds = .ok (RGWRole.digits_value ds) := by
  cases ds with
  | nil => exact absurd rfl hne
  | cons c t =>
    have hc : RGWRole.isdigit c = true := hd c (by simp)
    have hc0 : 48 ≤ c ∧ c ≤ 57 := by
      simpa [RGWRole.isdigit] using hc
    have hc' : 48 ≤ c.val ∧ c.val ≤ 57 := ⟨Fin.le_def.mp hc0.1, Fin.le_def.mp hc0.2⟩
    have hsp : RGWRole.isspace c = false := by
      simp only [RGWRole.isspace, Bool.or_eq_false_iff, Bool.and_eq_false_imp,
        decide_eq_false_iff_not, decide_eq_true_eq, Fin.le_def, Fin.ext_iff]
      constructor
      · show ¬ c.val = 32
        omega
      · intro _
        show ¬ c.val ≤ 13
        omega
    have h45 : c ≠ 45 := by
      intro e
      rw [e] at hc'
      revert hc'
      decide
    have h43 : c ≠ 43 := by
      intro e
      rw [e] at hc'
      revert hc'
      decide
    have htw : List.takeWhile RGWRole.isdigit (c :: t) = c :: t :=
      List.takeWhile_eq_self_iff.mpr hd
    have hsg : RGWRole.take_sign (c :: t) = (false, c :: t) := by
      unfold RGWRole.take_sign
      split
      · rename_i heq
        exact absurd (List.cons.inj heq).1 h45
      · rename_i heq
        exact absurd (List.cons.inj heq).1 h43
      · rfl
    have hge : ¬ RGWRole.digits_value (c :: t) ≥ 2 ^ 64 := by omega
    have hdw : List.dropWhile RGWRole.isspace (c :: t) = c :: t := by
      simp [List.dropWhile_cons, hsp]
    simp only [RGWRole.stoull, hdw, hsg, htw, List.isEmpty_cons, hge, if_false,
      Bool.false_eq_true]

/-- Every 64-bit value, written in decimal, parses to itself. -/
theorem stoull_decimal (n : Nat) (h : n < 2 ^ 64) : RGWRole.stoull (decimal n) = .ok n := by
  have hv : RGWRole.digits_value (decimal n) = n := decimal_digits_value (n + 1) n (by omega)
  have := stoull_digits (decimal n) (decimal_ne_nil n) (decimal_digits_isdigit _ _)
    (by rw [hv]; exact h)
  rw [hv] at this
  exact this

/-- A string that parses is stored as parsed. -/
theorem new_of_stoull (uninit : Nat) (name tenant path trust_policy str : Str)
    (tags : List (Str × Str)) (v : Nat) (hne : str ≠ []) (hv : RGWRole.stoull str = .ok v) :
    ∃ r, RGWRole.new uninit name tenant path trust_policy str tags = .ok r ∧
      r.max_session_duration = v := by
  have he : str.isEmpty = false := by
    cases str with
    | nil => exact absurd rfl hne
    | cons c cs => rfl
  simp only [RGWRole.new, he, hv]
  exact ⟨_, rfl, rfl⟩

/-- The constructor never changes the name and the tenant it was given: the
string handed to `extract_name_tenant` is the moved-from parameter. -/
theorem new_name_tenant (uninit : Nat) (name tenant path trust_policy : Str)
    (tags : List (Str × Str)) :
    ∃ r, RGWRole.new uninit name tenant path trust_policy [] tags = .ok r ∧
      r.name = name ∧ r.tenant = tenant := by
  refine ⟨_, rfl, ?_, ?_⟩ <;>
    simp only [RGWRole.std_move, RGWRole.extract_name_tenant, RGWRole.split_tenant] <;>
    split <;> rfl

/-! ## The claims -/

set_option maxRecDepth 100000

/-- C1. Round trip on bytes: encoding a role at the current schema version,
decoding the bytes (into any role) and encoding the result gives the bytes of the
first encoding. -/
theorem encode_decode_encode (r target : RGWRole) (h : r.wf) :
    ∃ r', RGWRole.decode target (r.encode []) = .ok (r', []) ∧ r'.encode [] = r.encode [] := by
  have hd := RGWRole.decode_encode r target [] h
  rw [List.append_nil] at hd
  exact ⟨_, hd, rfl⟩

theorem encode_decode_encode_witness :
    sample_role.wf ∧
      ∃ r', RGWRole.decode (RGWRole.default 0) (sample_role.encode []) = .ok (r', []) ∧
        r'.encode [] = sample_role.encode [] :=
  ⟨by decide, encode_decode_encode sample_role (RGWRole.default 0) (by decide)⟩

/-- C2. Decoding the bytes produced by `RGWRole::encode` succeeds, consumes exactly
the record, and yields a role whose nine serialized fields equal those of the
encoded role. -/
theorem decode_encode_fields (r target : RGWRole) (h : r.wf) :
    ∃ r', RGWRole.decode target (r.encode []) = .ok (r', []) ∧
      r'.id = r.id ∧ r'.name = r.name ∧ r'.path = r.path ∧ r'.arn = r.arn ∧
      r'.creation_date = r.creation_date ∧ r'.trust_policy = r.trust_policy ∧
      r'.perm_policy_map = r.perm_policy_map ∧ r'.tenant = r.tenant ∧
      r'.max_session_duration = r.max_session_duration := by
  have hd := RGWRole.decode_encode r target [] h
  rw [List.append_nil] at hd
  exact ⟨_, hd, rfl, rfl, rfl, rfl, rfl, rfl, rfl, rfl, rfl⟩

theorem decode_encode_fields_witness :
    sample_role.wf ∧
      ∃ r', RGWRole.decode (RGWRole.default 0) (sample_role.encode []) = .ok (r', []) ∧
        r'.id = sample_role.id ∧ r'.name = sample_role.name ∧ r'.path = sample_role.path ∧
        r'.arn = sample_role.arn ∧ r'.creation_date = sample_role.creation_date ∧
        r'.trust_policy = sample_role.trust_policy ∧
        r'.perm_policy_map = sample_role.perm_policy_map ∧ r'.tenant = sample_role.tenant ∧
        r'.max_session_duration = sample_role.max_session_duration :=
  ⟨by decide, decode_encode_fields sample_role (RGWRole.default 0) (by decide)⟩

/-- C3, at a failing input. A version-1 record decoded into a value-initialized
`RGWRole()` (whose `max_session_duration` is zero) decodes successfully, and the
resulting `max_session_duration` is 0, not `SESSION_DURATION_MIN`: `decode` does
not assign the field when `struct_v < 3`. -/
theorem decode_v1_max_session_duration :
    ∃ r', RGWRole.decode (RGWRole.default 0) (sample_role.encode_v1 []) = .ok (r', []) ∧
      r'.max_session_duration = 0 ∧ r'.max_session_duration ≠ SESSION_DURATION_MIN := by
  have hd := RGWRole.decode_encode_v1 sample_role (RGWRole.default 0) [] (by decide)
  rw [List.append_nil] at hd
  exact ⟨_, hd, rfl, by decide⟩

/-- C4, as stated, fails. The claim puts no condition on the role decoded into.
A version-1 record decoded into a role whose tenant is `keeptenant` decodes
successfully and the resulting role still has tenant `keeptenant`, not the empty
string: `decode` does not assign the tenant when `struct_v < 2`. -/
theorem decode_v1_keeps_target_tenant :
    ∃ r', RGWRole.decode tenanted_target (sample_role.encode_v1 []) = .ok (r', []) ∧
      r'.tenant = ascii "keeptenant" ∧ r'.tenant ≠ [] := by
  have hd := RGWRole.decode_encode_v1 sample_role tenanted_target [] (by decide)
  rw [List.append_nil] at hd
  exact ⟨_, hd, by decide, by decide⟩

/-- C4, amended. A version-1 record decodes successfully; the seven version-1
fields are recovered as written; the tenant is not read from the record: the
bytes after the record are left unread and the tenant of the result is that of
the role decoded into, whatever it is. When that role is default-constructed the
resulting tenant is the empty string. -/
theorem decode_v1_tenant (r target : RGWRole) (uninit : Nat) (rest : List Byte)
    (h : r.wf_v1) :
    (∃ r', RGWRole.decode (RGWRole.default uninit) (r.encode_v1 [] ++ rest) = .ok (r', rest) ∧
      r'.id = r.id ∧ r'.name = r.name ∧ r'.path = r.path ∧ r'.arn = r.arn ∧
      r'.creation_date = r.creation_date ∧ r'.trust_policy = r.trust_policy ∧
      r'.perm_policy_map = r.perm_policy_map ∧ r'.tenant = []) ∧
    (∃ r', RGWRole.decode target (r.encode_v1 [] ++ rest) = .ok (r', rest) ∧
      r'.id = r.id ∧ r'.name = r.name ∧ r'.path = r.path ∧ r'.arn = r.arn ∧
      r'.creation_date = r.creation_date ∧ r'.trust_policy = r.trust_policy ∧
      r'.perm_policy_map = r.perm_policy_map ∧ r'.tenant = target.tenant) :=
  ⟨⟨_, RGWRole.decode_encode_v1 r (RGWRole.default uninit) rest h,
      rfl, rfl, rfl, rfl, rfl, rfl, rfl, rfl⟩,
   ⟨_, RGWRole.decode_encode_v1 r target rest h, rfl, rfl, rfl, rfl, rfl, rfl, rfl, rfl⟩⟩

theorem decode_v1_tenant_witness :
    sample_role.wf_v1 ∧
      ∃ r', RGWRole.decode (RGWRole.default 0)
          (sample_role.encode_v1 [] ++ encode_string (ascii "acme")) =
            .ok (r', encode_string (ascii "acme")) ∧
        r'.id = sample_role.id ∧ r'.name = sample_role.name ∧ r'.path = sample_role.path ∧
        r'.arn = sample_role.arn ∧ r'.creation_date = sample_role.creation_date ∧
        r'.trust_policy = sample_role.trust_policy ∧
        r'.perm_policy_map = sample_role.perm_policy_map ∧ r'.tenant = [] :=
  ⟨by decide,
   (decode_v1_tenant sample_role sample_role 0 (encode_string (ascii "acme")) (by decide)).1⟩

/-- C5. A record whose version tag (its first byte) is greater than 3 is not
decoded: `RGWRole::decode` raises an error, whatever follows the tag and whatever
the target role. -/
theorem decode_future_version (target : RGWRole) (v : Byte) (bl : List Byte)
    (h : 3 < v.val) : ∃ e, RGWRole.decode target (v :: bl) = .error e := by
  simp only [RGWRole.decode, DECODE_START, decode_u8, decode_raw, bind, Except.bind]
  cases bl with
  | nil => exact ⟨.end_of_buffer, by simp⟩
  | cons c bl =>
    refine ⟨.malformed_input, ?_⟩
    simp [decode_le, h]

theorem decode_future_version_witness :
    3 < (4 : Byte).val ∧
      ∃ e, RGWRole.decode (RGWRole.default 0) (4 :: (sample_role.encode []).tail) =
        .error e :=
  ⟨by decide,
   decode_future_version (RGWRole.default 0) 4 (sample_role.encode []).tail (by decide)⟩

/-- C6, as stated, fails. The constructor accepts a `max_session_duration` string
whose parsed value lies outside `[3600, 43200]`: `"100"` and `"43201"` both give a
role, with `max_session_duration` 100 and 43201. -/
theorem new_accepts_out_of_range :
    (∃ r, RGWRole.new 0 (ascii "admin") (ascii "acme") [] [] (ascii "100") [] = .ok r ∧
      r.max_session_duration = 100 ∧
      ¬ (SESSION_DURATION_MIN ≤ r.max_session_duration ∧
          r.max_session_duration ≤ SESSION_DURATION_MAX)) ∧
    (∃ r, RGWRole.new 0 (ascii "admin") (ascii "acme") [] [] (ascii "43201") [] = .ok r ∧
      r.max_session_duration = 43201 ∧
      ¬ (SESSION_DURATION_MIN ≤ r.max_session_duration ∧
          r.max_session_duration ≤ SESSION_DURATION_MAX)) :=
  ⟨⟨_, rfl, by decide, by decide⟩, ⟨_, rfl, by decide, by decide⟩⟩

/-- C6, amended. Constructing a role with a non-empty `max_session_duration`
string that `std::stoull` parses to `v` succeeds and stores `v` as it is, for
every `v`: the constructor makes no range check. In particular every 64-bit value
`w`, hence every value of `[3600, 43200]`, is accepted when written in decimal. -/
theorem new_max_session_duration (uninit : Nat) (name tenant path trust_policy str : Str)
    (tags : List (Str × Str)) (v w : Nat) (hne : str ≠ [])
    (hv : RGWRole.stoull str = .ok v) (hw : w < 2 ^ 64) :
    (∃ r, RGWRole.new uninit name tenant path trust_policy str tags = .ok r ∧
      r.max_session_duration = v) ∧
    (∃ r, RGWRole.new uninit name tenant path trust_policy (decimal w) tags = .ok r ∧
      r.max_session_duration = w) :=
  ⟨new_of_stoull uninit name tenant path trust_policy str tags v hne hv,
   new_of_stoull uninit name tenant path trust_policy (decimal w) tags w (decimal_ne_nil w)
     (stoull_decimal w hw)⟩

theorem new_max_session_duration_witness :
    ascii "3600" ≠ [] ∧ RGWRole.stoull (ascii "3600") = .ok SESSION_DURATION_MIN ∧
    SESSION_DURATION_MAX < 2 ^ 64 ∧ decimal SESSION_DURATION_MAX = ascii "43200" ∧
    (∃ r, RGWRole.new 0 (ascii "admin") (ascii "acme") [] [] (ascii "3600") [] = .ok r ∧
      r.max_session_duration = SESSION_DURATION_MIN) ∧
    (∃ r, RGWRole.new 0 (ascii "admin") (ascii "acme") [] [] (decimal SESSION_DURATION_MAX) [] =
        .ok r ∧
      r.max_session_duration = SESSION_DURATION_MAX) :=
  have h := new_max_session_duration 0 (ascii "admin") (ascii "acme") [] [] (ascii "3600") []
    SESSION_DURATION_MIN SESSION_DURATION_MAX (by decide) (by decide) (by decide)
  ⟨by decide, by decide, by decide, by decide, h.1, h.2⟩

/-- C7. With an empty `max_session_duration` string the constructor succeeds and
the role has `max_session_duration == 3600`, whatever the other arguments. -/
theorem new_default_duration (uninit : Nat) (name tenant path trust_policy : Str)
    (tags : List (Str × Str)) :
    ∃ r, RGWRole.new uninit name tenant path trust_policy [] tags = .ok r ∧
      r.max_session_duration = 3600 :=
  ⟨_, rfl, rfl⟩

/-- C8, at a failing input. Constructed from the name `acme$admin`, the role keeps
the whole string as its name and the tenant argument (here empty) as its tenant,
although the name splits into tenant `acme` and name `admin`: the body passes the
moved-from parameter to `extract_name_tenant`. -/
theorem new_tenant_qualified_name :
    ∃ r, RGWRole.new 0 (ascii "acme$admin") [] [] [] [] [] = .ok r ∧
      r.name = ascii "acme$admin" ∧ r.tenant = [] ∧
      RGWRole.split_tenant (ascii "acme$admin") = some (ascii "acme", ascii "admin") :=
  ⟨_, rfl, by decide, by decide, by decide⟩

/-- C10. The record does not carry the tags. Two roles that agree on the nine
serialized fields encode to the same bytes, whatever their tags. Decoding leaves
the tags of the target as they were, on the encoding of a role and on any other
buffer that decodes; so decoding a role's encoding into a default-constructed
role gives an empty tag set. -/
theorem encode_without_tags (r1 r2 target : RGWRole) (uninit : Nat) (bl : List Byte)
    (hid : r1.id = r2.id) (hname : r1.name = r2.name) (hpath : r1.path = r2.path)
    (harn : r1.arn = r2.arn) (hdate : r1.creation_date = r2.creation_date)
    (htrust : r1.trust_policy = r2.trust_policy)
    (hperm : r1.perm_policy_map = r2.perm_policy_map) (htenant : r1.tenant = r2.tenant)
    (hdur : r1.max_session_duration = r2.max_session_duration) (hwf : r1.wf) :
    r1.encode bl = r2.encode bl ∧
    (∃ r', RGWRole.decode target (r1.encode []) = .ok (r', []) ∧ r'.tags = target.tags) ∧
    (∃ r', RGWRole.decode (RGWRole.default uninit) (r1.encode []) = .ok (r', []) ∧
      r'.tags = []) ∧
    (∀ (bytes rest : List Byte) (r' : RGWRole),
      RGWRole.decode target bytes = .ok (r', rest) → r'.tags = target.tags) := by
  refine ⟨?_, ?_, ?_, fun bytes rest r' h => RGWRole.decode_tags target r' bytes rest h⟩
  · simp only [RGWRole.encode, RGWRole.encode_fields, hid, hname, hpath, harn, hdate, htrust,
      hperm, htenant, hdur]
  · have hd := RGWRole.decode_encode r1 target [] hwf
    rw [List.append_nil] at hd
    exact ⟨_, hd, rfl⟩
  · have hd := RGWRole.decode_encode r1 (RGWRole.default uninit) [] hwf
    rw [List.append_nil] at hd
    exact ⟨_, hd, rfl⟩

theorem encode_without_tags_witness :
    sample_role.wf ∧ sample_role.tags ≠ sample_role_retagged.tags ∧ sample_role.tags ≠ [] ∧
    sample_role.encode [] = sample_role_retagged.encode [] ∧
    (∃ r', RGWRole.decode (RGWRole.default 0) (sample_role.encode []) = .ok (r', []) ∧
      r'.tags = []) :=
  have h := encode_without_tags sample_role sample_role_retagged sample_role 0 []
    rfl rfl rfl rfl rfl rfl rfl rfl rfl (by decide)
  ⟨by decide, by decide, by decide, h.1, h.2.2.1⟩

end RGW
